import Mathlib

/-!
Verification of the Encryptor repository (src/main.rs) against its
natural-language specification.

The program is a single-file AES-256-GCM file encryption utility built on
the ring crate.  We shallowly embed its core: the error taxonomy
(EncryptError), the key builder (UnboundKey::new), nonce construction
(Nonce::try_assume_unique_for_key), the in-place seal/open transforms,
the file pipeline (encrypt / decrypt), output-path derivation, and the
command dispatch of main.

The ring crate is third-party library code, not part of this repository,
so the AES-256-GCM cipher itself is modelled as a structure RingAead whose
fields capture ring's documented AEAD contract: encryption is a
length-preserving, deterministic byte transform; the tag is a 16-byte
function of key, nonce and ciphertext; decryption inverts encryption; and
(the cryptographic guarantee of GCM with full-length tags) flipping any
single bit of the ciphertext changes the tag.  The repository functions
are embedded faithfully over any such cipher.

Byte sequences are List Nat (each entry one byte), file contents read from
a modelled file system fs : String -> Option (List Nat) (none = the open
or read fails with an I/O error).  encrypt/decrypt return the single
(path, contents) write they perform on success; an error value means the
function returned before reaching File::create, so no output is written.
-/

/-- Tag length of AES_256_GCM (ring: aead::AES_256_GCM.tag_len() = 16). -/
def TAG_LEN : Nat := 16

/-- Key length of AES_256_GCM (ring: 32 bytes / 256 bits). -/
def KEY_LEN : Nat := 32

/-- Nonce length of AES_256_GCM (ring: 96 bits / 12 bytes). -/
def NONCE_LEN : Nat := 12

/-- ring::error::Unspecified — ring's deliberately opaque error value. -/
inductive Unspecified : Type where
  | unspecified
deriving DecidableEq, Repr

/-- The error enum of src/main.rs lines 10-14:
IoError(io::Error) and AeadError(Unspecified).  The io::Error payload (an
OS-level message) plays no role in any claim and is elided. -/
inductive EncryptError : Type where
  | ioError
  | aeadError
deriving DecidableEq, Repr

/-- Flip bit j of byte i of a byte sequence. -/
def flipBit (l : List Nat) (i j : Nat) : List Nat :=
  l.set i ((l.getD i 0) ^^^ 2 ^ j)

/-- Model of the ring crate's AES-256-GCM AEAD cipher (library code outside
this repository), by its documented contract:
- enc k n p: the ciphertext for plaintext p (same length as p, deterministic);
- tagC k n c: the 16-byte authentication tag computed over ciphertext c;
- dec k n c: the decryption of ciphertext c, inverse of enc;
- tag_flip: flipping any single bit of the ciphertext changes the tag
  (GCM's authentication guarantee for full 128-bit tags). -/
structure RingAead : Type where
  enc : List Nat → List Nat → List Nat → List Nat
  dec : List Nat → List Nat → List Nat → List Nat
  tagC : List Nat → List Nat → List Nat → List Nat
  enc_length : ∀ k n p, (enc k n p).length = p.length
  dec_enc : ∀ k n p, dec k n (enc k n p) = p
  tagC_length : ∀ k n c, (tagC k n c).length = TAG_LEN
  tag_flip : ∀ k n c i j, i < c.length → j < 8 →
    tagC k n (flipBit c i j) ≠ tagC k n c

/-- aead::UnboundKey::new(&aead::AES_256_GCM, key_bytes)
(src/main.rs lines 199 and 240): fails with Unspecified unless the key
material is exactly KEY_LEN bytes; otherwise the key is the raw bytes. -/
def unboundKeyNew (keyBytes : List Nat) : Except Unspecified (List Nat) :=
  if keyBytes.length = KEY_LEN then .ok keyBytes else .error .unspecified

/-- aead::Nonce::try_assume_unique_for_key(nonce)
(src/main.rs lines 220 and 245): fails with Unspecified unless the nonce is
exactly NONCE_LEN bytes. -/
def nonceTryAssumeUniqueForKey (nonce : List Nat) : Except Unspecified (List Nat) :=
  if nonce.length = NONCE_LEN then .ok nonce else .error .unspecified

/-- LessSafeKey::seal_in_place_append_tag (src/main.rs line 219): encrypts
the buffer in place and appends the 16-byte tag.  (ring also rejects
buffers above AES-GCM's astronomical maximum input length, about 2^36
bytes; that limit is irrelevant to every claim and elided.) -/
def sealInPlaceAppendTag (A : RingAead) (key nonce buf : List Nat) : List Nat :=
  A.enc key nonce buf ++ A.tagC key nonce (A.enc key nonce buf)

/-- LessSafeKey::open_in_place (src/main.rs line 244): with a buffer
shorter than TAG_LEN the call fails; otherwise the trailing TAG_LEN bytes
are checked against the tag of the leading ciphertext, and on success the
ciphertext region is decrypted in place.  The returned list is the state of
the whole buffer after the call: ring mutates only the ciphertext region,
so the buffer keeps its full length and still ends with the tag bytes.
(ring returns a sub-slice holding just the plaintext; main.rs line 244
discards that return value.) -/
def openInPlace (A : RingAead) (key nonce buf : List Nat) :
    Except Unspecified (List Nat) :=
  if buf.length < TAG_LEN then .error .unspecified
  else
    if buf.drop (buf.length - TAG_LEN) =
        A.tagC key nonce (buf.take (buf.length - TAG_LEN)) then
      .ok (A.dec key nonce (buf.take (buf.length - TAG_LEN)) ++
        buf.drop (buf.length - TAG_LEN))
    else .error .unspecified

/-- Scan a reversed character list, dropping everything up to and including
the first '.' (i.e. the last '.' of the original string). -/
def dropLastExtRev : List Char → List Char
  | [] => []
  | c :: cs => if c = '.' then cs else dropLastExtRev cs

/-- The output path of decrypt (src/main.rs lines 251-258):
file_path.rfind then split_at — the prefix of the path strictly before the last
'.', or the unchanged path when it contains no '.'.  rfind('.') returns
Some exactly when '.' occurs in the path, and split_at(last-dot-index).0
is the path with everything from the last '.' onward removed, which is
computed here by scanning the reversed character list. -/
def decryptedFilePath (filePath : String) : String :=
  if '.' ∈ filePath.data then
    String.mk (dropLastExtRev filePath.data.reverse).reverse
  else filePath

/-- fn encrypt (src/main.rs lines 171-230): read the whole file, build the
key, seal in place appending the tag, write to file_path ++ ".enc".
The ? operator converts Unspecified into EncryptError::AeadError and
io::Error into EncryptError::IoError; each step short-circuits.  On
success the returned pair is the (path, contents) written. -/
def encrypt (A : RingAead) (password : List Nat) (filePath : String)
    (nonce : List Nat) (fs : String → Option (List Nat)) :
    Except EncryptError (String × List Nat) :=
  match fs filePath with
  | none => .error .ioError
  | some contents =>
    match unboundKeyNew password with
    | .error _ => .error .aeadError
    | .ok key =>
      match nonceTryAssumeUniqueForKey nonce with
      | .error _ => .error .aeadError
      | .ok n =>
        .ok (filePath ++ ".enc", sealInPlaceAppendTag A key n contents)

/-- fn decrypt (src/main.rs lines 233-291): read the whole file, build the
key, open in place (the nonce conversion is evaluated before open runs),
then write the buffer — the WHOLE buffer `contents`, whose length
open_in_place cannot change — to decryptedFilePath. -/
def decrypt (A : RingAead) (password : List Nat) (filePath : String)
    (nonce : List Nat) (fs : String → Option (List Nat)) :
    Except EncryptError (String × List Nat) :=
  match fs filePath with
  | none => .error .ioError
  | some contents =>
    match unboundKeyNew password with
    | .error _ => .error .aeadError
    | .ok key =>
      match nonceTryAssumeUniqueForKey nonce with
      | .error _ => .error .aeadError
      | .ok n =>
        match openInPlace A key n contents with
        | .error _ => .error .aeadError
        | .ok opened => .ok (decryptedFilePath filePath, opened)

/-- UTF-8 encoding of one character (str::as_bytes views the &str's UTF-8
bytes; passwords travel through main as &str). -/
def utf8Bytes (c : Char) : List Nat :=
  let n := c.toNat
  if n < 0x80 then [n]
  else if n < 0x800 then [0xC0 + n / 0x40, 0x80 + n % 0x40]
  else if n < 0x10000 then
    [0xE0 + n / 0x1000, 0x80 + (n / 0x40) % 0x40, 0x80 + n % 0x40]
  else
    [0xF0 + n / 0x40000, 0x80 + (n / 0x1000) % 0x40,
      0x80 + (n / 0x40) % 0x40, 0x80 + n % 0x40]

/-- The UTF-8 bytes of a string (Rust str::as_bytes). -/
def strBytes (s : String) : List Nat :=
  (s.data.map utf8Bytes).flatten

/-- The observable outcome of one run of fn main (src/main.rs lines 44-163):
print usage; abort abnormally (an index-out-of-bounds panic or the
unwrap() panic on a nonce parse error); print "Invalid command"; or run
encrypt/decrypt and report its result. -/
inductive MainOutcome : Type where
  | usage
  | aborted
  | invalidCommand
  | encrypted (r : Except EncryptError (String × List Nat))
  | decrypted (r : Except EncryptError (String × List Nat))

/-- fn main (src/main.rs lines 44-163).  args includes the program name at
index 0.  serde_json::from_str::<Vec<u8>> is library code, modelled by the
parameter parseNonceJson (none = parse error).  Control flow from the
source: if args.len() < 4 print usage and return; bind args[1..3] and
args[4] (an index-out-of-bounds panic when only 4 strings are present,
since the guard checks len() < 4 but the nonce lives at index 4); parse
the nonce, where a parse failure is printed and then hits unwrap(), which
panics; finally dispatch on the command string. -/
def mainModel (A : RingAead) (parseNonceJson : String → Option (List Nat))
    (fs : String → Option (List Nat)) (args : List String) : MainOutcome :=
  if args.length < 4 then .usage
  else
    match args[4]? with
    | none => .aborted
    | some nonceStr =>
      match parseNonceJson nonceStr with
      | none => .aborted
      | some nonce =>
        let command := args.getD 1 ""
        let password := args.getD 2 ""
        let filePath := args.getD 3 ""
        if command = "encrypt" then
          .encrypted (encrypt A (strBytes password) filePath nonce fs)
        else if command = "decrypt" then
          .decrypted (decrypt A (strBytes password) filePath nonce fs)
        else .invalidCommand

/-! ### A concrete cipher instance

All claim theorems below are proved for every RingAead; concrete witnesses
instantiate them at xorAead, a minimal cipher satisfying the contract:
encryption XORs every byte with 1 and the tag is the XOR-fold of the
ciphertext padded with zeros (a single bit flip always changes an XOR
fold, which realises tag_flip). -/

/-- XOR-fold of a byte sequence. -/
def xorFold (l : List Nat) : Nat := l.foldr (fun a b => a ^^^ b) 0

theorem xorFold_cons (a : Nat) (l : List Nat) :
    xorFold (a :: l) = a ^^^ xorFold l := rfl

theorem xorFold_append (l1 l2 : List Nat) :
    xorFold (l1 ++ l2) = xorFold l1 ^^^ xorFold l2 := by
  induction l1 with
  | nil => simp [xorFold]
  | cons a l ih =>
    simp only [List.cons_append, xorFold_cons, ih, Nat.xor_assoc]

theorem xor_left_cancel {a x y : Nat} (h : a ^^^ x = a ^^^ y) : x = y := by
  have h2 := congrArg (fun z => a ^^^ z) h
  simpa [Nat.xor_cancel_left] using h2

theorem xor_right_cancel {x y c : Nat} (h : x ^^^ c = y ^^^ c) : x = y := by
  refine xor_left_cancel (a := c) ?_
  rw [Nat.xor_comm c x, Nat.xor_comm c y]
  exact h

theorem xor_two_pow_ne (b j : Nat) : b ^^^ 2 ^ j ≠ b := by
  intro h
  have h2 : b ^^^ (b ^^^ 2 ^ j) = b ^^^ b := by rw [h]
  rw [Nat.xor_cancel_left, Nat.xor_self] at h2
  exact pow_ne_zero j (by norm_num) h2

theorem xorFold_flipBit_ne (l : List Nat) (i j : Nat) (hi : i < l.length) :
    xorFold (flipBit l i j) ≠ xorFold l := by
  have hl : xorFold l =
      xorFold (l.take i) ^^^ (l[i] ^^^ xorFold (l.drop (i + 1))) := by
    conv_lhs => rw [← List.take_append_drop i l]
    rw [List.drop_eq_getElem_cons hi, xorFold_append, xorFold_cons]
  have hs : xorFold (flipBit l i j) =
      xorFold (l.take i) ^^^
        ((l.getD i 0 ^^^ 2 ^ j) ^^^ xorFold (l.drop (i + 1))) := by
    rw [flipBit, List.set_eq_take_cons_drop _ hi, xorFold_append, xorFold_cons]
  intro h
  rw [hs, hl] at h
  have h1 := xor_right_cancel (xor_left_cancel h)
  rw [List.getD_eq_getElem l 0 hi] at h1
  exact xor_two_pow_ne l[i] j h1

/-- The tag of the concrete instance: the XOR-fold of the ciphertext,
padded to TAG_LEN bytes with zeros. -/
def xorTag (c : List Nat) : List Nat := xorFold c :: List.replicate 15 0

/-- A concrete RingAead instance used by the witnesses. -/
def xorAead : RingAead where
  enc := fun _ _ p => p.map (fun b => b ^^^ 1)
  dec := fun _ _ c => c.map (fun b => b ^^^ 1)
  tagC := fun _ _ c => xorTag c
  enc_length := fun _ _ p => by simp
  dec_enc := fun _ _ p => by
    show List.map (fun b => b ^^^ 1) (List.map (fun b => b ^^^ 1) p) = p
    rw [List.map_map]
    have hc : ((fun b => b ^^^ 1) ∘ fun b : Nat => b ^^^ 1) = id := by
      funext b
      simp only [Function.comp_apply, id_eq, Nat.xor_assoc, Nat.xor_self,
        Nat.xor_zero]
    rw [hc, List.map_id]
  tagC_length := fun _ _ c => by simp [xorTag, TAG_LEN]
  tag_flip := fun _ _ c i j hi _ => by
    simp only [xorTag, ne_eq, List.cons.injEq, and_true]
    exact xorFold_flipBit_ne c i j hi

/-! ### Concrete data for the witnesses: the end-to-end scenario of the
spec (password "01234567890123456789012345678901", nonce of 12 zero
bytes, file "report.txt" containing "hello world"). -/

/-- The bytes of "hello world". -/
def hw : List Nat := [104, 101, 108, 108, 111, 32, 119, 111, 114, 108, 100]

/-- The 32 ASCII bytes of the spec's example password. -/
def pwBytes : List Nat := strBytes "01234567890123456789012345678901"

/-- The 12-byte all-zero nonce of the spec's example. -/
def nonce0 : List Nat := List.replicate 12 0

/-- A file system holding only "report.txt" with contents "hello world". -/
def fs1 : String → Option (List Nat) :=
  fun p => if p = "report.txt" then some hw else none

/-- The sealed artifact encrypt writes to "report.txt.enc". -/
def sealedHW : List Nat := sealInPlaceAppendTag xorAead pwBytes nonce0 hw

/-- A file system holding only the encrypted artifact. -/
def fs2 : String → Option (List Nat) :=
  fun p => if p = "report.txt.enc" then some sealedHW else none

/-- What decrypt actually writes back: the plaintext followed by the 16
tag bytes that open_in_place leaves in the buffer. -/
def decryptedHW : List Nat := hw ++ sealedHW.drop 11


/-! ### Supporting lemmas -/

theorem string_mk_data (s : String) : String.mk s.data = s := by
  cases s
  rfl

theorem dropLastExtRev_append (m r : List Char) (hm : '.' ∉ m) :
    dropLastExtRev (m ++ '.' :: r) = r := by
  induction m with
  | nil => simp [dropLastExtRev]
  | cons a l ih =>
    have ha : a ≠ '.' := fun h => hm (by simp [h])
    rw [List.cons_append, dropLastExtRev, if_neg ha]
    exact ih (fun h => hm (List.mem_cons_of_mem a h))

theorem length_dropLastExtRev_lt (l : List Char) (hl : '.' ∈ l) :
    (dropLastExtRev l).length < l.length := by
  induction l with
  | nil => cases hl
  | cons a m ih =>
    by_cases ha : a = '.'
    · simp [dropLastExtRev, ha]
    · have hm : '.' ∈ m := by
        rcases List.mem_cons.mp hl with h | h
        · exact absurd h.symm ha
        · exact h
      rw [dropLastExtRev, if_neg ha, List.length_cons]
      exact Nat.lt_succ_of_lt (ih hm)

theorem decryptedFilePath_no_dot (p : String) (hp : '.' ∉ p.data) :
    decryptedFilePath p = p := by
  rw [decryptedFilePath, if_neg hp]

theorem decryptedFilePath_strip (pre post : String) (hpost : '.' ∉ post.data) :
    decryptedFilePath (pre ++ "." ++ post) = pre := by
  have hdata : (pre ++ "." ++ post).data = pre.data ++ '.' :: post.data := by
    rw [String.data_append, String.data_append, List.append_assoc]
    rfl
  have hmem : '.' ∈ (pre ++ "." ++ post).data := by
    rw [hdata]
    exact List.mem_append_right _ (List.mem_cons_self _ _)
  rw [decryptedFilePath, if_pos hmem, hdata]
  rw [List.reverse_append, List.reverse_cons, List.append_assoc,
    List.singleton_append]
  rw [dropLastExtRev_append _ _ (fun h => hpost (List.mem_reverse.mp h)),
    List.reverse_reverse, string_mk_data]

theorem decryptedFilePath_ne_of_dot (p : String) (hp : '.' ∈ p.data) :
    decryptedFilePath p ≠ p := by
  intro h
  have hlt : (dropLastExtRev p.data.reverse).length < p.data.length := by
    have h2 := length_dropLastExtRev_lt p.data.reverse (List.mem_reverse.mpr hp)
    rwa [List.length_reverse] at h2
  rw [decryptedFilePath, if_pos hp] at h
  have hlen : (dropLastExtRev p.data.reverse).reverse.length = p.data.length :=
    congrArg String.length h
  rw [List.length_reverse] at hlen
  omega

theorem openInPlace_append (A : RingAead) (key nonce c t : List Nat)
    (ht : t.length = TAG_LEN) :
    openInPlace A key nonce (c ++ t) =
      if t = A.tagC key nonce c then .ok (A.dec key nonce c ++ t)
      else .error .unspecified := by
  have hlen : (c ++ t).length = c.length + TAG_LEN := by
    rw [List.length_append, ht]
  have hnlt : ¬ (c ++ t).length < TAG_LEN := by
    rw [hlen]; omega
  have hsub : (c ++ t).length - TAG_LEN = c.length := by
    rw [hlen]; omega
  rw [openInPlace, if_neg hnlt, hsub, List.take_left' rfl, List.drop_left' rfl]

theorem set_getD_xor_ne (t : List Nat) (m j : Nat) (hm : m < t.length) :
    t.set m ((t.getD m 0) ^^^ 2 ^ j) ≠ t := by
  intro h
  have h1 := congrArg (fun l => l.getD m 0) h
  simp only at h1
  rw [List.getD_eq_getElem t 0 hm] at h1
  have hb : m < (t.set m (t[m] ^^^ 2 ^ j)).length := by
    rw [List.length_set]; exact hm
  rw [List.getD_eq_getElem _ _ hb, List.getElem_set_self] at h1
  exact xor_two_pow_ne _ j h1

theorem openInPlace_flip_fails (A : RingAead) (key nonce c t : List Nat)
    (i j : Nat) (ht : A.tagC key nonce c = t) (hi : i < (c ++ t).length)
    (hj : j < 8) :
    openInPlace A key nonce (flipBit (c ++ t) i j) = .error .unspecified := by
  have htlen : t.length = TAG_LEN := ht ▸ A.tagC_length key nonce c
  rw [flipBit, List.set_append]
  by_cases hic : i < c.length
  · rw [if_pos hic]
    have hgd : (c ++ t).getD i 0 = c.getD i 0 := by
      rw [List.getD_eq_getElem _ _ hi, List.getD_eq_getElem _ _ hic]
      exact List.getElem_append_left hic
    rw [hgd, openInPlace_append A key nonce _ _ htlen]
    refine if_neg ?_
    intro hEq
    exact A.tag_flip key nonce c i j hic hj (hEq.symm.trans ht.symm)
  · rw [if_neg hic]
    have hcle : c.length ≤ i := Nat.le_of_not_lt hic
    have him : i - c.length < t.length := by
      rw [List.length_append] at hi; omega
    have hgd : (c ++ t).getD i 0 = t.getD (i - c.length) 0 := by
      rw [List.getD_eq_getElem _ _ hi, List.getD_eq_getElem _ _ him]
      exact List.getElem_append_right hcle
    rw [hgd]
    have hlen2 : (t.set (i - c.length)
        ((t.getD (i - c.length) 0) ^^^ 2 ^ j)).length = TAG_LEN := by
      rw [List.length_set]; exact htlen
    rw [openInPlace_append A key nonce _ _ hlen2]
    refine if_neg ?_
    intro hEq
    exact set_getD_xor_ne t (i - c.length) j him (hEq.trans ht)

/-! ### Claim theorems -/

/-- C1: the round-trip claim FAILS on the code.  On the spec's own
end-to-end example (32-byte password, 12-byte zero nonce, plaintext
"hello world"), encrypt writes the 27-byte artifact to "report.txt.enc",
but decrypt on that artifact writes back a 27-byte file — the plaintext
followed by the 16 tag bytes that open_in_place leaves in the buffer —
not the original 11-byte plaintext: main.rs line 244 discards the
plaintext slice returned by open_in_place and line 288 writes the whole
untruncated buffer. -/
theorem c1_roundtrip_fails_hello_world :
    encrypt xorAead pwBytes "report.txt" nonce0 fs1 =
      .ok ("report.txt.enc", sealedHW)
    ∧ decrypt xorAead pwBytes "report.txt.enc" nonce0 fs2 =
      .ok ("report.txt", decryptedHW)
    ∧ decryptedHW ≠ hw
    ∧ decryptedHW.length = hw.length + 16 :=
  ⟨rfl, rfl, by decide, by decide⟩

/-- C2: the Open postcondition FAILS on the code.  open_in_place operates
on a slice of the buffer and cannot shrink the Vec: on the spec's example
the buffer after a successful open still has its full 27-byte length
(not 27 - 16), and holds the plaintext followed by the 16 tag bytes, so
the written output is not the plaintext alone. -/
theorem c2_open_leaves_tag_in_buffer :
    openInPlace xorAead pwBytes nonce0 sealedHW =
      .ok (hw ++ sealedHW.drop 11)
    ∧ (hw ++ sealedHW.drop 11).length = sealedHW.length
    ∧ (hw ++ sealedHW.drop 11).length ≠ sealedHW.length - 16
    ∧ hw ++ sealedHW.drop 11 ≠ hw :=
  ⟨rfl, by decide, by decide, by decide⟩

/-- C3: a successful encrypt grows the buffer by exactly TAG_LEN = 16
bytes and writes it to path ++ ".enc": the output is the ciphertext of
the N-byte input (N bytes) followed by the 16-byte tag, N + 16 bytes in
all. -/
theorem c3_encrypt_appends_16_byte_tag (A : RingAead) (pw : List Nat)
    (path : String) (nonce : List Nat) (fs : String → Option (List Nat))
    (p : List Nat) (hfs : fs path = some p) (hpw : pw.length = 32)
    (hn : nonce.length = 12) :
    encrypt A pw path nonce fs =
      .ok (path ++ ".enc", sealInPlaceAppendTag A pw nonce p)
    ∧ (A.enc pw nonce p).length = p.length
    ∧ (A.tagC pw nonce (A.enc pw nonce p)).length = 16
    ∧ (sealInPlaceAppendTag A pw nonce p).length = p.length + 16 := by
  refine ⟨?_, A.enc_length pw nonce p, A.tagC_length pw nonce _, ?_⟩
  · simp [encrypt, hfs, unboundKeyNew, nonceTryAssumeUniqueForKey,
      KEY_LEN, NONCE_LEN, hpw, hn]
  · have h1 := A.enc_length pw nonce p
    have h2 := A.tagC_length pw nonce (A.enc pw nonce p)
    rw [sealInPlaceAppendTag, List.length_append, h1, h2]
    rfl

/-- C3 witness: the spec's end-to-end example, an 11-byte "hello world"
file yielding a 27-byte artifact. -/
theorem c3_encrypt_appends_16_byte_tag_witness :
    (encrypt xorAead pwBytes "report.txt" nonce0 fs1 =
      .ok ("report.txt" ++ ".enc", sealInPlaceAppendTag xorAead pwBytes nonce0 hw)
    ∧ (xorAead.enc pwBytes nonce0 hw).length = hw.length
    ∧ (xorAead.tagC pwBytes nonce0 (xorAead.enc pwBytes nonce0 hw)).length = 16
    ∧ (sealInPlaceAppendTag xorAead pwBytes nonce0 hw).length = hw.length + 16)
    ∧ (sealInPlaceAppendTag xorAead pwBytes nonce0 hw).length = 27 :=
  ⟨c3_encrypt_appends_16_byte_tag xorAead pwBytes "report.txt" nonce0 fs1 hw
      (by decide) (by decide) (by decide),
    by decide⟩

/-- C4: a password whose byte length is not 32 makes UnboundKey::new fail,
so both encrypt and decrypt return the CryptoError variant AeadError,
whatever the (readable) file contents and whatever the nonce. -/
theorem c4_key_length_enforced (A : RingAead) (pw : List Nat) (path : String)
    (nonce : List Nat) (fs : String → Option (List Nat)) (c : List Nat)
    (hfs : fs path = some c) (hpw : pw.length ≠ 32) :
    encrypt A pw path nonce fs = .error .aeadError
    ∧ decrypt A pw path nonce fs = .error .aeadError := by
  constructor <;>
    simp [encrypt, decrypt, hfs, unboundKeyNew, KEY_LEN, hpw]

/-- C4 witness: the empty password. -/
theorem c4_key_length_enforced_witness :
    encrypt xorAead [] "report.txt" nonce0 fs1 = .error .aeadError
    ∧ decrypt xorAead [] "report.txt" nonce0 fs1 = .error .aeadError :=
  c4_key_length_enforced xorAead [] "report.txt" nonce0 fs1 hw
    (by decide) (by decide)

/-- C5: a nonce whose byte length is not 12 makes both encrypt and decrypt
return the CryptoError variant AeadError, whatever the password and
whatever the (readable) file contents: with a 32-byte password
Nonce::try_assume_unique_for_key rejects the nonce, and with any other
password the key builder already failed with the same error value. -/
theorem c5_nonce_length_enforced (A : RingAead) (pw : List Nat) (path : String)
    (nonce : List Nat) (fs : String → Option (List Nat)) (c : List Nat)
    (hfs : fs path = some c) (hn : nonce.length ≠ 12) :
    encrypt A pw path nonce fs = .error .aeadError
    ∧ decrypt A pw path nonce fs = .error .aeadError := by
  by_cases hpw : pw.length = 32
  · constructor <;>
      simp [encrypt, decrypt, hfs, unboundKeyNew, nonceTryAssumeUniqueForKey,
        KEY_LEN, NONCE_LEN, hpw, hn]
  · constructor <;>
      simp [encrypt, decrypt, hfs, unboundKeyNew, KEY_LEN, hpw]

/-- C5 witness: an 11-byte nonce with the valid 32-byte password. -/
theorem c5_nonce_length_enforced_witness :
    encrypt xorAead pwBytes "report.txt" (List.replicate 11 0) fs1 =
      .error .aeadError
    ∧ decrypt xorAead pwBytes "report.txt" (List.replicate 11 0) fs1 =
      .error .aeadError :=
  c5_nonce_length_enforced xorAead pwBytes "report.txt" (List.replicate 11 0)
    fs1 hw (by decide) (by decide)

/-- C10: a file shorter than TAG_LEN = 16 bytes cannot contain a tag;
open_in_place rejects it, decrypt returns AeadError before any
File::create, and no output file is created. -/
theorem c10_short_file_decrypt_fails (A : RingAead) (pw : List Nat)
    (path : String) (nonce : List Nat) (fs : String → Option (List Nat))
    (c : List Nat) (hfs : fs path = some c) (hc : c.length < 16)
    (hpw : pw.length = 32) (hn : nonce.length = 12) :
    decrypt A pw path nonce fs = .error .aeadError := by
  simp [decrypt, hfs, unboundKeyNew, nonceTryAssumeUniqueForKey, KEY_LEN,
    NONCE_LEN, hpw, hn, openInPlace, TAG_LEN, hc]

/-- A file system holding only a 3-byte file, too short to hold a tag. -/
def fsShort : String → Option (List Nat) :=
  fun p => if p = "short.bin" then some [1, 2, 3] else none

/-- C10 witness: a 3-byte file. -/
theorem c10_short_file_decrypt_fails_witness :
    decrypt xorAead pwBytes "short.bin" nonce0 fsShort = .error .aeadError :=
  c10_short_file_decrypt_fails xorAead pwBytes "short.bin" nonce0 fsShort
    [1, 2, 3] (by decide) (by decide) (by decide) (by decide)

/-- C6: output-path derivation.  Whenever encrypt succeeds it writes to
the input path with the fixed ".enc" suffix appended; whenever decrypt
succeeds it writes to decryptedFilePath of the input path, which removes
the substring from the last '.' onward when the path contains a '.' and
is the unchanged path otherwise. -/
theorem c6_path_derivation :
    (∀ (A : RingAead) (pw : List Nat) (path : String) (nonce : List Nat)
      (fs : String → Option (List Nat)) (out : String × List Nat),
      encrypt A pw path nonce fs = .ok out → out.1 = path ++ ".enc")
    ∧ (∀ (A : RingAead) (pw : List Nat) (path : String) (nonce : List Nat)
      (fs : String → Option (List Nat)) (out : String × List Nat),
      decrypt A pw path nonce fs = .ok out → out.1 = decryptedFilePath path)
    ∧ (∀ pre post : String, '.' ∉ post.data →
      decryptedFilePath (pre ++ "." ++ post) = pre)
    ∧ (∀ p : String, '.' ∉ p.data → decryptedFilePath p = p) := by
  refine ⟨?_, ?_, decryptedFilePath_strip, decryptedFilePath_no_dot⟩
  · intro A pw path nonce fs out h
    unfold encrypt at h
    repeat' split at h
    all_goals try (cases h)
    all_goals rfl
  · intro A pw path nonce fs out h
    unfold decrypt at h
    repeat' split at h
    all_goals try (cases h)
    all_goals rfl

/-- C6 witness: "report.txt" encrypts to "report.txt.enc",
"report.txt.enc" decrypts to "report.txt", and "README" decrypts to
"README". -/
theorem c6_path_derivation_witness :
    decryptedFilePath ("report.txt" ++ "." ++ "enc") = "report.txt"
    ∧ decryptedFilePath "README" = "README"
    ∧ encrypt xorAead pwBytes "report.txt" nonce0 fs1 =
      .ok ("report.txt" ++ ".enc", sealedHW) :=
  ⟨c6_path_derivation.2.2.1 "report.txt" "enc" (by decide),
    c6_path_derivation.2.2.2 "README" (by decide),
    rfl⟩

/-- A two-byte plaintext for the C7 counterexample. -/
def readmePlain : List Nat := [0, 0]

/-- The sealed artifact stored in the extensionless file "README". -/
def readmeSealed : List Nat :=
  sealInPlaceAppendTag xorAead pwBytes nonce0 readmePlain

/-- A file system holding only "README" with the sealed artifact. -/
def fsReadme : String → Option (List Nat) :=
  fun p => if p = "README" then some readmeSealed else none

/-- The bytes a successful decrypt of "README" writes back to "README". -/
def readmeWritten : List Nat := readmePlain ++ readmeSealed.drop 2

/-- C7 counterexample: the claim that the source file is never overwritten
FAILS.  Decrypting the extensionless path "README" derives the output path
"README" — the input path itself — and the successful operation writes
bytes different from the source file's contents to it, so the source
file's on-disk contents change. -/
theorem c7_source_overwritten_counterexample :
    fsReadme "README" = some readmeSealed
    ∧ decrypt xorAead pwBytes "README" nonce0 fsReadme =
      .ok ("README", readmeWritten)
    ∧ readmeWritten ≠ readmeSealed :=
  ⟨rfl, rfl, by decide⟩

/-- C7 amended: the source file is never deleted, and encrypt never
writes to the input path (its output path always differs from the input
path).  Decrypt's output path differs from the input path exactly when
the input path contains a '.'; when the input path contains no '.', the
output path equals the input path, so a successful decrypt overwrites
the source file. -/
theorem c7_amended_source_preservation :
    (∀ path : String, path ++ ".enc" ≠ path)
    ∧ (∀ path : String, '.' ∈ path.data → decryptedFilePath path ≠ path)
    ∧ (∀ path : String, '.' ∉ path.data → decryptedFilePath path = path) := by
  refine ⟨?_, decryptedFilePath_ne_of_dot, decryptedFilePath_no_dot⟩
  intro path h
  have hlen := congrArg String.length h
  rw [String.length_append] at hlen
  have h4 : (".enc" : String).length = 4 := rfl
  omega

/-- C7 amended witness: concrete paths for each conjunct. -/
theorem c7_amended_source_preservation_witness :
    decryptedFilePath "report.txt.enc" ≠ "report.txt.enc"
    ∧ decryptedFilePath "README" = "README"
    ∧ "README" ++ ".enc" ≠ "README" :=
  ⟨c7_amended_source_preservation.2.1 "report.txt.enc" (by decide),
    c7_amended_source_preservation.2.2 "README" (by decide),
    c7_amended_source_preservation.1 "README"⟩

/-- C8: the claim that the process never aborts abnormally FAILS.  With
exactly three positional arguments the guard args.len() < 4 passes, but
the binding of args[4] (the nonce) indexes out of bounds and the process
panics; and with a malformed nonce JSON argument, serde's parse error is
printed and then unwrap() panics.  Both runs end in an abnormal abort,
not a printed message followed by a normal exit. -/
theorem c8_main_aborts_on_three_args_or_bad_nonce :
    mainModel xorAead (fun _ => none) fs1
      ["encryptor", "encrypt", "01234567890123456789012345678901",
        "report.txt"] = .aborted
    ∧ mainModel xorAead (fun _ => none) fs1
      ["encryptor", "encrypt", "01234567890123456789012345678901",
        "report.txt", "not a json array"] = .aborted :=
  ⟨rfl, rfl⟩

/-- C9: tamper detection.  Flipping any single bit (byte index i, bit
index j) anywhere in a sealed artifact — ciphertext region or tag region
— makes decrypt fail with the CryptoError variant AeadError; the error
return precedes the File::create of the output path, so no output file is
written. -/
theorem c9_tamper_detected (A : RingAead) (pw : List Nat) (path : String)
    (nonce : List Nat) (fs : String → Option (List Nat)) (p : List Nat)
    (i j : Nat) (hpw : pw.length = 32) (hn : nonce.length = 12)
    (hi : i < (sealInPlaceAppendTag A pw nonce p).length) (hj : j < 8)
    (hfs : fs path = some (flipBit (sealInPlaceAppendTag A pw nonce p) i j)) :
    decrypt A pw path nonce fs = .error .aeadError := by
  have hopen : openInPlace A pw nonce
      (flipBit (sealInPlaceAppendTag A pw nonce p) i j) =
      .error .unspecified :=
    openInPlace_flip_fails A pw nonce (A.enc pw nonce p)
      (A.tagC pw nonce (A.enc pw nonce p)) i j rfl hi hj
  simp [decrypt, hfs, unboundKeyNew, nonceTryAssumeUniqueForKey, KEY_LEN,
    NONCE_LEN, hpw, hn, hopen]

/-- A file system holding the sealed "hello world" artifact with its very
first bit flipped. -/
def fsTampered : String → Option (List Nat) :=
  fun q => if q = "report.txt.enc" then some (flipBit sealedHW 0 0) else none

/-- C9 witness: flipping bit 0 of byte 0 of the sealed "hello world"
artifact makes decrypt fail. -/
theorem c9_tamper_detected_witness :
    decrypt xorAead pwBytes "report.txt.enc" nonce0 fsTampered =
      .error .aeadError :=
  c9_tamper_detected xorAead pwBytes "report.txt.enc" nonce0 fsTampered hw 0 0
    (by decide) (by decide) (by decide) (by decide) (by decide)
